import Mathlib

/-! Shallow embedding of the redstreak repository: the sorted immutable
catalog (InMemoryCatalog), the versioned configuration store
(InMemoryConfigManager) and the capability-gated pub/sub lifecycle state
machine (PubSubHandler).

JavaScript runtime values that can reach the validators are modelled by
JsValue; JS numbers are modelled as rationals (every number the code
stores or compares, away from NaN) and NaN is a separate constructor.
structuredClone plus deepFreeze produce independent immutable snapshots,
which Lean's value semantics gives for free.  fakeDeepFreeze (used by the
config manager) yields a live read-only view of the canonical object, so a
mutation of a canonical record is mirrored into the frozen map in the
embedding.  Throwing code is embedded with Except; an operation that
throws leaves the receiver unchanged exactly when the source performs no
mutation before the throw, which holds for every operation here. -/

deriving instance DecidableEq for Except

/-- Model of a JavaScript runtime value as seen by the validators:
a non-NaN number, NaN, or any non-number value (for a non-number value
only its truthiness is ever observed, so it is carried as a Bool). -/
inductive JsValue where
  | num (q : ℚ)
  | nan
  | other (t : Bool)
deriving DecidableEq

/-- JS ToBoolean on the modelled values: a number is truthy unless it is 0,
NaN is falsy, and a non-number value carries its own truthiness. -/
def truthy : JsValue → Bool
  | JsValue.num q => decide (q ≠ 0)
  | JsValue.nan => false
  | JsValue.other t => t

/-! ## Catalog (src/unnamed/part_000, InMemoryCatalog) -/

/-- Error kinds of InMemoryCatalogError. -/
inductive CatError where
  | INVALID_ID
  | INDEX_ERROR
  | DUPLICATE_INSERT_ERROR
deriving DecidableEq

/-- An item handed to the catalog: an id (a raw JS value until validated)
plus its other data, abstracted as one natural number field. -/
structure ItemInput where
  id : JsValue
  value : ℕ
deriving DecidableEq

/-- An item stored by the catalog: its id passed assertId, hence a number. -/
structure StoredItem where
  id : ℚ
  value : ℕ
deriving DecidableEq

/-- InMemoryCatalog.assertId: throws INVALID_ID unless the id is a
non-NaN number that is at least 1 (typeof id != "number" || isNaN(id) ||
id < 1). -/
def assertIdE (id : JsValue) : Except CatError ℚ :=
  match id with
  | JsValue.num q => if q < 1 then .error CatError.INVALID_ID else .ok q
  | _ => .error CatError.INVALID_ID

/-- Modelled from the spec: the ordered-insertion utility insertionIndex is
imported from ./utils, which is not under src/.  Per the spec it returns,
for a sorted sequence and the comparator (a, b) => a.id - b.id, the index
at which the candidate belongs to preserve order; on a sorted list that is
the length of the prefix of items strictly below the candidate id. -/
def insertionIndex (items : List StoredItem) (q : ℚ) : ℕ :=
  (items.takeWhile (fun it => decide (it.id < q))).length

/-- Modelled from the spec: the binary-search utility bSearch is imported
from ./utils, which is not under src/.  Per the spec it locates the
element matching the candidate under the comparator; the source consumes
only "index > -1" and the element at the index, so it is modelled as the
index of the entry with the given id, or none for -1. -/
def bSearchIdx (items : List StoredItem) (q : ℚ) : Option ℕ :=
  items.findIdx? (fun it => decide (it.id = q))

/-- JS Array.prototype.splice(pos, 0, a): insert a at position pos. -/
def splice (l : List StoredItem) (pos : ℕ) (a : StoredItem) : List StoredItem :=
  l.take pos ++ a :: l.drop pos

/-- InMemoryCatalog.insert: validate the id, snapshot the item, compute the
sorted insertion position, splice the snapshot in unless the slot already
holds an item with the same id (then DUPLICATE_INSERT_ERROR). -/
def insertItem (items : List StoredItem) (item : ItemInput) : Except CatError (List StoredItem) :=
  match assertIdE item.id with
  | .error e => .error e
  | .ok q =>
    let frozenClone : StoredItem := ⟨q, item.value⟩
    let pos := insertionIndex items q
    match items[pos]? with
    | none => .ok (splice items pos frozenClone)
    | some itemAtPos =>
      if itemAtPos.id = q then .error CatError.DUPLICATE_INSERT_ERROR
      else .ok (splice items pos frozenClone)

/-- InMemoryCatalog.update: validate the id, find the existing position,
replace the stored snapshot wholesale, or INDEX_ERROR when absent. -/
def updateItem (items : List StoredItem) (item : ItemInput) : Except CatError (List StoredItem) :=
  match assertIdE item.id with
  | .error e => .error e
  | .ok q =>
    match bSearchIdx items q with
    | some index => .ok (items.set index ⟨q, item.value⟩)
    | none => .error CatError.INDEX_ERROR

/-- InMemoryCatalog.findById: validate the id, return the stored snapshot
at that identity or none; never an error for a missing id. -/
def findById (items : List StoredItem) (id : JsValue) : Except CatError (Option StoredItem) :=
  match assertIdE id with
  | .error e => .error e
  | .ok q =>
    match bSearchIdx items q with
    | some index => .ok items[index]?
    | none => .ok none

/-- InMemoryCatalog.remove: validate the id, splice the entry out when
present, silently do nothing when absent. -/
def removeItem (items : List StoredItem) (id : JsValue) : Except CatError (List StoredItem) :=
  match assertIdE id with
  | .error e => .error e
  | .ok q =>
    match bSearchIdx items q with
    | some index => .ok (items.eraseIdx index)
    | none => .ok items

/-- InMemoryCatalog.fetchAll: an element-wise copy of the backing array;
under value semantics the copy is the list itself. -/
def fetchAll (items : List StoredItem) : List StoredItem := items

/-- Run an insert to completion: on a throw the collection is unchanged
(insert performs no mutation before any of its throws). -/
def runInsert (items : List StoredItem) (item : ItemInput) : List StoredItem :=
  match insertItem items item with
  | .ok l => l
  | .error _ => items

/-- The catalog backing array is sorted strictly ascending by id. -/
abbrev CatSorted (items : List StoredItem) : Prop :=
  items.Pairwise (fun a b => a.id < b.id)

/-- The amended validity predicate for catalog identities, as the source
checks it: a non-NaN number at least 1 (no integrality requirement). -/
def ValidIdB (id : JsValue) : Bool :=
  match id with
  | JsValue.num q => decide (1 ≤ q)
  | _ => false

/-! ## ConfigManager (InMemoryConfigManager) -/

/-- CONFIG_STATUS: INACTIVE = 0, ACTIVE = 1. -/
inductive Status where
  | INACTIVE
  | ACTIVE
deriving DecidableEq

/-- Error kinds of InMemoryConfigManagerError. -/
inductive CMError where
  | INVALID_VERSION
  | INVALID_STATUS
  | REMOVING_ACTIVE_CONFIG
  | NO_CONFIG
  | ACTIVE_OVERWRITE
  | DUPLICATE_VERSION
  | IMMUTABLE_FIELD_UPDATE
deriving DecidableEq

/-- A config handed to the manager: version and status are raw JS values
until validated; the other data is abstracted as one natural field. -/
structure ConfigInput where
  version : JsValue
  status : JsValue
  payload : ℕ
deriving DecidableEq

/-- A config record stored by the manager, after its version and status
passed the validators. -/
structure StoredConfig where
  version : ℚ
  status : Status
  payload : ℕ
deriving DecidableEq

/-- A JS Map from version to record, as an association list in insertion
order with pairwise-distinct keys on every reachable state. -/
abbrev VMap := List (ℚ × StoredConfig)

/-- Map.prototype.get. -/
def mapGet (m : VMap) (k : ℚ) : Option StoredConfig :=
  (m.find? (fun p => decide (p.1 = k))).map Prod.snd

/-- Map.prototype.set: replace the value at an existing key in place,
otherwise append the new entry. -/
def mapSet : VMap → ℚ → StoredConfig → VMap
  | [], k, c => [(k, c)]
  | p :: rest, k, c =>
    if p.1 = k then (k, c) :: rest else p :: mapSet rest k c

/-- Map.prototype.delete. -/
def mapDel (m : VMap) (k : ℚ) : VMap :=
  m.filter (fun p => decide (p.1 ≠ k))

/-- In-place mutation of the status field of the record object stored at
key k (the destructuring assignment in activate); the fakeDeepFreeze views
alias the same objects, so the caller applies this to both maps. -/
def mapSetStatus (m : VMap) (k : ℚ) (s : Status) : VMap :=
  m.map (fun p => if p.1 = k then (p.1, { p.2 with status := s }) else p)

/-- The keys of a map are pairwise distinct (a JS Map guarantees this). -/
abbrev keysNodup (m : VMap) : Prop := (m.map Prod.fst).Nodup

/-- InMemoryConfigManager state: the canonical map, the frozen-view map
(fakeDeepFreeze views of the same records) and the activeConfig pointer.
The pointer is a frozen view whose only consumed field is version, so it
is carried as that version. -/
structure CMState where
  configs : VMap
  fakeConfigs : VMap
  activeVersion? : Option ℚ
deriving DecidableEq

/-- The manager built by the zero-argument constructor. -/
def emptyCM : CMState := ⟨[], [], none⟩

/-- InMemoryConfigManager.size. -/
def CMState.size (st : CMState) : ℕ := st.configs.length

/-- InMemoryConfigManager.assertVersion: throws INVALID_VERSION unless the
version is a non-NaN number that is at least 0. -/
def assertVersionE (version : JsValue) : Except CMError ℚ :=
  match version with
  | JsValue.num q => if q < 0 then .error CMError.INVALID_VERSION else .ok q
  | _ => .error CMError.INVALID_VERSION

/-- InMemoryConfigManager.assertStatus: throws INVALID_STATUS unless the
status is a non-NaN number equal to 0 (INACTIVE) or 1 (ACTIVE). -/
def assertStatusE (status : JsValue) : Except CMError Status :=
  match status with
  | JsValue.num q =>
    if q = 0 then .ok Status.INACTIVE
    else if q = 1 then .ok Status.ACTIVE
    else .error CMError.INVALID_STATUS
  | _ => .error CMError.INVALID_STATUS

/-- get() with no argument: the frozen view of the active record looked up
afresh in the frozen map, or none. -/
def getNoArg (st : CMState) : Option StoredConfig :=
  match st.activeVersion? with
  | some av => mapGet st.fakeConfigs av
  | none => none

/-- get(version): the source gates the branch on the truthiness of the
argument (if(version)), so a falsy version falls through to the
no-argument behaviour. -/
def getWithArg (st : CMState) (version : JsValue) : Except CMError (Option StoredConfig) :=
  if truthy version then
    match assertVersionE version with
    | .error e => .error e
    | .ok v => .ok (mapGet st.fakeConfigs v)
  else .ok (getNoArg st)

/-- InMemoryConfigManager.activate: validate the version, NO_CONFIG when
absent, no-op when the found record is the very object the active pointer
designates (distinct Map entries are distinct objects, so object identity
holds exactly when the active version equals the requested one), otherwise
swap the statuses in place and repoint activeConfig at the frozen view of
the target. -/
def activate (st : CMState) (version : JsValue) : Except CMError CMState :=
  match assertVersionE version with
  | .error e => .error e
  | .ok v =>
    match mapGet st.configs v with
    | none => .error CMError.NO_CONFIG
    | some config =>
      if st.activeVersion? = some v then .ok st
      else
        match st.activeVersion? with
        | none =>
          let configs2 := mapSetStatus st.configs v Status.ACTIVE
          let fake2 := mapSetStatus st.fakeConfigs v Status.ACTIVE
          .ok { configs := configs2, fakeConfigs := fake2,
                activeVersion? := (mapGet fake2 config.version).map StoredConfig.version }
        | some av =>
          match mapGet st.configs av with
          | none =>
            let configs2 := mapSetStatus st.configs v Status.ACTIVE
            let fake2 := mapSetStatus st.fakeConfigs v Status.ACTIVE
            .ok { configs := configs2, fakeConfigs := fake2,
                  activeVersion? := (mapGet fake2 config.version).map StoredConfig.version }
          | some _ =>
            let configs2 := mapSetStatus (mapSetStatus st.configs av Status.INACTIVE) v Status.ACTIVE
            let fake2 := mapSetStatus (mapSetStatus st.fakeConfigs av Status.INACTIVE) v Status.ACTIVE
            .ok { configs := configs2, fakeConfigs := fake2,
                  activeVersion? := (mapGet fake2 config.version).map StoredConfig.version }

/-- InMemoryConfigManager.add: validate version and status,
ACTIVE_OVERWRITE when adding an ACTIVE config while one is active,
DUPLICATE_VERSION when the version exists, otherwise store the snapshot in
both maps and, for an ACTIVE config, run the activation side effect. -/
def add (st : CMState) (c : ConfigInput) : Except CMError CMState :=
  match assertVersionE c.version with
  | .error e => .error e
  | .ok v =>
    match assertStatusE c.status with
    | .error e => .error e
    | .ok s =>
      if s = Status.ACTIVE ∧ st.activeVersion?.isSome then .error CMError.ACTIVE_OVERWRITE
      else if (mapGet st.configs v).isSome then .error CMError.DUPLICATE_VERSION
      else
        let clone : StoredConfig := ⟨v, s, c.payload⟩
        let st1 : CMState :=
          { configs := mapSet st.configs v clone,
            fakeConfigs := mapSet st.fakeConfigs v clone,
            activeVersion? := st.activeVersion? }
        if s = Status.ACTIVE then activate st1 (JsValue.num v) else .ok st1

/-- InMemoryConfigManager.update: validate version and status, silently do
nothing when the version is absent, IMMUTABLE_FIELD_UPDATE when the given
status differs from the stored one, otherwise replace the stored record in
both maps with a fresh snapshot (the activeConfig pointer is not touched). -/
def update (st : CMState) (c : ConfigInput) : Except CMError CMState :=
  match assertVersionE c.version with
  | .error e => .error e
  | .ok v =>
    match assertStatusE c.status with
    | .error e => .error e
    | .ok s =>
      match mapGet st.configs v with
      | none => .ok st
      | some config =>
        if s ≠ config.status then .error CMError.IMMUTABLE_FIELD_UPDATE
        else
          let clone : StoredConfig := ⟨v, s, c.payload⟩
          .ok { st with configs := mapSet st.configs v clone,
                        fakeConfigs := mapSet st.fakeConfigs v clone }

/-- InMemoryConfigManager.remove: validate the version, silently do nothing
when absent, REMOVING_ACTIVE_CONFIG when the found record is ACTIVE,
otherwise delete the entry from both maps. -/
def remove (st : CMState) (version : JsValue) : Except CMError CMState :=
  match assertVersionE version with
  | .error e => .error e
  | .ok v =>
    match mapGet st.configs v with
    | none => .ok st
    | some config =>
      if config.status = Status.ACTIVE then .error CMError.REMOVING_ACTIVE_CONFIG
      else .ok { st with configs := mapDel st.configs v,
                         fakeConfigs := mapDel st.fakeConfigs v }

/-- One public mutating operation of the config manager. -/
inductive CMOp where
  | addOp (c : ConfigInput)
  | updateOp (c : ConfigInput)
  | removeOp (version : JsValue)
  | activateOp (version : JsValue)
deriving DecidableEq

/-- Dispatch one operation. -/
def applyCM (st : CMState) : CMOp → Except CMError CMState
  | CMOp.addOp c => add st c
  | CMOp.updateOp c => update st c
  | CMOp.removeOp v => remove st v
  | CMOp.activateOp v => activate st v

/-- Run one operation to completion: on a throw the manager is unchanged
(every operation performs its throws before any mutation). -/
def runCM (st : CMState) (op : CMOp) : CMState :=
  match applyCM st op with
  | .ok st2 => st2
  | .error _ => st

/-- The for loop of the constructor: add each config in order, stopping at
the first exception. -/
def addAll (st : CMState) : List ConfigInput → Except CMError CMState
  | [] => .ok st
  | c :: rest =>
    match add st c with
    | .error e => .error e
    | .ok st1 => addAll st1 rest

/-- The constructor with an initial list adds each config in order; an
exception escapes the constructor. -/
def mkManager (init : List ConfigInput) : Except CMError CMState :=
  addAll emptyCM init

/-- Number of stored records whose status is ACTIVE. -/
def activeCount (m : VMap) : ℕ :=
  (m.filter (fun p => decide (p.2.status = Status.ACTIVE))).length

/-- Bool form of: whenever the active pointer is set, the canonical map
holds an ACTIVE record at that version. -/
def ptrOkB (st : CMState) : Bool :=
  match st.activeVersion? with
  | none => true
  | some v =>
    match mapGet st.configs v with
    | some c => decide (c.status = Status.ACTIVE)
    | none => false

/-- Invariant of every reachable manager state: distinct keys, the frozen
map mirrors the canonical map, each record is stored under its own
version, every ACTIVE record is the one the pointer designates, and the
pointer designates an ACTIVE record. -/
def ActiveInv (st : CMState) : Prop :=
  keysNodup st.configs ∧
  st.fakeConfigs = st.configs ∧
  (∀ p ∈ st.configs, p.2.version = p.1) ∧
  (∀ p ∈ st.configs, p.2.status = Status.ACTIVE → st.activeVersion? = some p.1) ∧
  ptrOkB st = true

/-! ## PubSubHandler (abstract lifecycle state machine) -/

/-- PubSubStates, with stateToInt giving the declared numeric values. -/
inductive PSState where
  | UNSUBSCRIBED
  | DISCONNECTED
  | CONNECTED
  | SUBSCRIBED
deriving DecidableEq

/-- Numeric value of each PubSubStates member. -/
def stateToInt : PSState → Int
  | PSState.UNSUBSCRIBED => -1
  | PSState.DISCONNECTED => 0
  | PSState.CONNECTED => 1
  | PSState.SUBSCRIBED => 2

/-- PubSubHandlerError kinds raised by the guards and the constructor;
HOOK_FAILURE stands for a rejection of the delegated abstract hook. -/
inductive PSError where
  | INVALID_MODE
  | NOT_CONNECTED
  | CANNOT_SUBSCRIBE
  | CANNOT_PUBLISH
  | HOOK_FAILURE
deriving DecidableEq

/-- A handler instance: the raw numeric mode it was constructed with
(PubSubModes: SUB = 0, PUB = 1, DUAL = 2) and the current state.  The
client handle and the event emitter carry no lifecycle information and
are omitted. -/
structure PSHandler where
  mode : ℚ
  state : PSState
deriving DecidableEq

/-- PubSubHandler._validateMode: typeof mode == "number" && mode in
PubSubStates.  The membership test runs against the PubSubStates enum
object, whose numeric reverse-mapping keys are -1, 0, 1 and 2. -/
def validateMode (mode : JsValue) : Bool :=
  match mode with
  | JsValue.num q => decide (q = -1 ∨ q = 0 ∨ q = 1 ∨ q = 2)
  | _ => false

/-- Construction of a concrete subclass: the abstract-class check passes,
then _validateMode gates INVALID_MODE, then the state starts DISCONNECTED. -/
def mkHandler (mode : JsValue) : Except PSError PSHandler :=
  match mode with
  | JsValue.num q =>
    if validateMode (JsValue.num q) then .ok ⟨q, PSState.DISCONNECTED⟩
    else .error PSError.INVALID_MODE
  | _ => .error PSError.INVALID_MODE

/-- get isConnected: state >= CONNECTED. -/
def PSHandler.isConnected (h : PSHandler) : Bool := decide (1 ≤ stateToInt h.state)

/-- get isSubscribed: state === SUBSCRIBED. -/
def PSHandler.isSubscribed (h : PSHandler) : Bool := decide (h.state = PSState.SUBSCRIBED)

/-- get canSubscribe: mode === SUB || mode === DUAL. -/
def PSHandler.canSubscribe (h : PSHandler) : Bool := decide (h.mode = 0 ∨ h.mode = 2)

/-- get canPublish: mode === PUB || mode === DUAL. -/
def PSHandler.canPublish (h : PSHandler) : Bool := decide (h.mode = 1 ∨ h.mode = 2)

/-- connect: no-op when already connected, otherwise await the hook and
advance to CONNECTED; hookOk tells whether the delegated hook resolves. -/
def connectOp (h : PSHandler) (hookOk : Bool) : Except PSError PSHandler :=
  if h.isConnected then .ok h
  else if hookOk then .ok { h with state := PSState.CONNECTED }
  else .error PSError.HOOK_FAILURE

/-- disconnect: no-op when not connected, otherwise await the hook and
fall back to DISCONNECTED. -/
def disconnectOp (h : PSHandler) (hookOk : Bool) : Except PSError PSHandler :=
  if !h.isConnected then .ok h
  else if hookOk then .ok { h with state := PSState.DISCONNECTED }
  else .error PSError.HOOK_FAILURE

/-- subscribe: connectionCheck, then subModeCheck, then await the hook and
advance to SUBSCRIBED. -/
def subscribeOp (h : PSHandler) (hookOk : Bool) : Except PSError PSHandler :=
  if !h.isConnected then .error PSError.NOT_CONNECTED
  else if !h.canSubscribe then .error PSError.CANNOT_SUBSCRIBE
  else if hookOk then .ok { h with state := PSState.SUBSCRIBED }
  else .error PSError.HOOK_FAILURE

/-- unsubscribe: connectionCheck, then subModeCheck, then await the hook
and fall back to DISCONNECTED. -/
def unsubscribeOp (h : PSHandler) (hookOk : Bool) : Except PSError PSHandler :=
  if !h.isConnected then .error PSError.NOT_CONNECTED
  else if !h.canSubscribe then .error PSError.CANNOT_SUBSCRIBE
  else if hookOk then .ok { h with state := PSState.DISCONNECTED }
  else .error PSError.HOOK_FAILURE

/-- publish: connectionCheck, then pubModeCheck, then await the hook; the
state is never written. -/
def publishOp (h : PSHandler) (hookOk : Bool) : Except PSError PSHandler :=
  if !h.isConnected then .error PSError.NOT_CONNECTED
  else if !h.canPublish then .error PSError.CANNOT_PUBLISH
  else if hookOk then .ok h
  else .error PSError.HOOK_FAILURE

/-- One lifecycle call, carrying whether its delegated hook resolves. -/
inductive PSOp where
  | connect (hookOk : Bool)
  | disconnect (hookOk : Bool)
  | subscribe (hookOk : Bool)
  | unsubscribe (hookOk : Bool)
  | publish (hookOk : Bool)
deriving DecidableEq

/-- Dispatch one lifecycle call. -/
def applyPS (h : PSHandler) : PSOp → Except PSError PSHandler
  | PSOp.connect ok => connectOp h ok
  | PSOp.disconnect ok => disconnectOp h ok
  | PSOp.subscribe ok => subscribeOp h ok
  | PSOp.unsubscribe ok => unsubscribeOp h ok
  | PSOp.publish ok => publishOp h ok

/-- Run one call to completion: a guard throw or hook rejection leaves the
state as it was (the state field is only assigned after the hook). -/
def runPS (h : PSHandler) (op : PSOp) : PSHandler :=
  match applyPS h op with
  | .ok h2 => h2
  | .error _ => h

/-! ## Lemmas about the association-list model of JS Map -/

theorem mapGet_cons (p : ℚ × StoredConfig) (m : VMap) (k : ℚ) :
    mapGet (p :: m) k = if p.1 = k then some p.2 else mapGet m k := by
  by_cases h : p.1 = k
  · simp [mapGet, List.find?_cons_of_pos, h]
  · simp [mapGet, List.find?_cons_of_neg, h]

theorem mapGet_eq_none_iff (m : VMap) (k : ℚ) :
    mapGet m k = none ↔ ∀ p ∈ m, p.1 ≠ k := by
  simp [mapGet, List.find?_eq_none]

theorem mapGet_eq_some_mem {m : VMap} {k : ℚ} {c : StoredConfig}
    (h : mapGet m k = some c) : (k, c) ∈ m := by
  rw [mapGet, Option.map_eq_some'] at h
  obtain ⟨pr, hfind, hsnd⟩ := h
  have hmem := List.mem_of_find?_eq_some hfind
  have hkey := List.find?_some hfind
  rw [decide_eq_true_eq] at hkey
  obtain ⟨a, b⟩ := pr
  cases hkey
  cases hsnd
  exact hmem

theorem mapGet_set_self (m : VMap) (k : ℚ) (c : StoredConfig) :
    mapGet (mapSet m k c) k = some c := by
  induction m with
  | nil => simp [mapSet, mapGet_cons]
  | cons p rest ih =>
    by_cases h : p.1 = k
    · simp [mapSet, h, mapGet_cons]
    · simp [mapSet, h, mapGet_cons, ih]

theorem mapGet_set_ne {k2 k : ℚ} (m : VMap) (c : StoredConfig) (h : k2 ≠ k) :
    mapGet (mapSet m k c) k2 = mapGet m k2 := by
  induction m with
  | nil =>
    have : ¬ k = k2 := fun hh => h hh.symm
    simp [mapSet, mapGet_cons, mapGet, this]
  | cons p rest ih =>
    by_cases hp : p.1 = k
    · have : ¬ k = k2 := fun hh => h hh.symm
      simp [mapSet, hp, mapGet_cons, this]
    · simp [mapSet, hp, mapGet_cons, ih]

theorem mapSet_cons (p : ℚ × StoredConfig) (rest : VMap) (k : ℚ) (c : StoredConfig) :
    mapSet (p :: rest) k c = if p.1 = k then (k, c) :: rest else p :: mapSet rest k c := rfl

theorem keys_mem_set {a k : ℚ} {c : StoredConfig} {m : VMap}
    (h : a ∈ (mapSet m k c).map Prod.fst) : a = k ∨ a ∈ m.map Prod.fst := by
  induction m with
  | nil => simp [mapSet] at h; left; exact h
  | cons p rest ih =>
    by_cases hp : p.1 = k
    · rw [mapSet_cons, if_pos hp] at h
      simp only [List.map_cons, List.mem_cons] at h
      rcases h with h1 | h2
      · left; exact h1
      · right; simp only [List.map_cons, List.mem_cons]; right; exact h2
    · rw [mapSet_cons, if_neg hp] at h
      simp only [List.map_cons, List.mem_cons] at h
      rcases h with h1 | h2
      · right; simp only [List.map_cons, List.mem_cons]; left; exact h1
      · rcases ih h2 with h3 | h4
        · left; exact h3
        · right; simp only [List.map_cons, List.mem_cons]; right; exact h4

theorem keysNodup_set {m : VMap} (k : ℚ) (c : StoredConfig) (h : keysNodup m) :
    keysNodup (mapSet m k c) := by
  induction m with
  | nil => simp [mapSet, keysNodup]
  | cons p rest ih =>
    rw [keysNodup, List.map_cons, List.nodup_cons] at h
    obtain ⟨hnot, hrest⟩ := h
    by_cases hp : p.1 = k
    · rw [keysNodup, mapSet_cons, if_pos hp]
      simp only [List.map_cons, List.nodup_cons]
      exact ⟨hp ▸ hnot, hrest⟩
    · rw [keysNodup, mapSet_cons, if_neg hp]
      simp only [List.map_cons, List.nodup_cons]
      refine ⟨fun hmem => ?_, ih hrest⟩
      rcases keys_mem_set hmem with h1 | h2
      · exact hp h1
      · exact hnot h2

theorem mem_set {p : ℚ × StoredConfig} {m : VMap} {k : ℚ} {c : StoredConfig}
    (hN : keysNodup m) (hp : p ∈ mapSet m k c) : p = (k, c) ∨ (p ∈ m ∧ p.1 ≠ k) := by
  induction m with
  | nil => simp [mapSet] at hp; left; exact hp
  | cons q rest ih =>
    rw [keysNodup, List.map_cons, List.nodup_cons] at hN
    obtain ⟨hq, hrest⟩ := hN
    by_cases hqk : q.1 = k
    · simp only [mapSet, if_pos hqk, List.mem_cons] at hp
      rcases hp with h1 | h2
      · left; exact h1
      · right
        refine ⟨List.mem_cons_of_mem _ h2, fun hk => ?_⟩
        exact hq (hqk ▸ hk ▸ List.mem_map_of_mem Prod.fst h2)
    · simp only [mapSet, if_neg hqk, List.mem_cons] at hp
      rcases hp with h1 | h2
      · right; exact ⟨h1 ▸ List.mem_cons_self q rest, h1 ▸ hqk⟩
      · rcases ih hrest h2 with h3 | ⟨h4, h5⟩
        · left; exact h3
        · right; exact ⟨List.mem_cons_of_mem _ h4, h5⟩

theorem mapSetStatus_cons (p : ℚ × StoredConfig) (rest : VMap) (k : ℚ) (s : Status) :
    mapSetStatus (p :: rest) k s =
      (if p.1 = k then (p.1, { p.2 with status := s }) else p) :: mapSetStatus rest k s := rfl

theorem mapGet_setStatus_self (m : VMap) (k : ℚ) (s : Status) :
    mapGet (mapSetStatus m k s) k = (mapGet m k).map (fun c => { c with status := s }) := by
  induction m with
  | nil => rfl
  | cons p rest ih =>
    rw [mapSetStatus_cons]
    by_cases h : p.1 = k
    · rw [if_pos h, mapGet_cons, mapGet_cons]
      simp [h]
    · rw [if_neg h, mapGet_cons, mapGet_cons, if_neg h, if_neg h, ih]

theorem mapGet_setStatus_ne {k2 k : ℚ} (m : VMap) (s : Status) (h : k2 ≠ k) :
    mapGet (mapSetStatus m k s) k2 = mapGet m k2 := by
  induction m with
  | nil => rfl
  | cons p rest ih =>
    rw [mapSetStatus_cons]
    by_cases hp : p.1 = k
    · have hne : ¬ p.1 = k2 := fun hh => h (hh ▸ hp)
      rw [if_pos hp, mapGet_cons, mapGet_cons, ih]
      simp [hne]
    · rw [if_neg hp, mapGet_cons, mapGet_cons, ih]

theorem keys_setStatus (m : VMap) (k : ℚ) (s : Status) :
    (mapSetStatus m k s).map Prod.fst = m.map Prod.fst := by
  induction m with
  | nil => rfl
  | cons p rest ih =>
    by_cases h : p.1 = k <;> simp [mapSetStatus, h] <;>
      simpa [mapSetStatus] using ih

theorem mem_setStatus {p : ℚ × StoredConfig} {m : VMap} {k : ℚ} {s : Status}
    (hp : p ∈ mapSetStatus m k s) :
    ∃ q ∈ m, p = if q.1 = k then (q.1, { q.2 with status := s }) else q := by
  rw [mapSetStatus, List.mem_map] at hp
  obtain ⟨q, hq, hfq⟩ := hp
  exact ⟨q, hq, hfq.symm⟩

theorem mem_del {p : ℚ × StoredConfig} {m : VMap} {k : ℚ} :
    p ∈ mapDel m k ↔ p ∈ m ∧ p.1 ≠ k := by
  simp [mapDel, List.mem_filter]

theorem mapGet_del_self (m : VMap) (k : ℚ) : mapGet (mapDel m k) k = none := by
  have h : ∀ p ∈ mapDel m k, ¬ (decide (p.1 = k) = true) := by
    intro p hp
    have := (mem_del.mp hp).2
    simpa using this
  simp [mapGet, List.find?_eq_none.mpr h]

theorem mapDel_cons (p : ℚ × StoredConfig) (rest : VMap) (k : ℚ) :
    mapDel (p :: rest) k = if p.1 = k then mapDel rest k else p :: mapDel rest k := by
  rw [mapDel, List.filter_cons]
  by_cases hp : p.1 = k <;> simp [mapDel, hp]

theorem mapGet_del_ne {k2 k : ℚ} (m : VMap) (h : k2 ≠ k) :
    mapGet (mapDel m k) k2 = mapGet m k2 := by
  induction m with
  | nil => rfl
  | cons p rest ih =>
    rw [mapDel_cons]
    by_cases hp : p.1 = k
    · have hne : ¬ p.1 = k2 := fun hh => h (hh ▸ hp)
      rw [if_pos hp, mapGet_cons, if_neg hne, ih]
    · rw [if_neg hp, mapGet_cons, mapGet_cons, ih]

theorem keysNodup_del {m : VMap} (k : ℚ) (h : keysNodup m) : keysNodup (mapDel m k) :=
  List.Nodup.sublist ((List.filter_sublist m).map Prod.fst) h

theorem length_del_add_one {m : VMap} {k : ℚ} {c : StoredConfig}
    (hN : keysNodup m) (h : mapGet m k = some c) :
    (mapDel m k).length + 1 = m.length := by
  induction m with
  | nil => simp [mapGet] at h
  | cons p rest ih =>
    rw [keysNodup, List.map_cons, List.nodup_cons] at hN
    obtain ⟨hq, hrest⟩ := hN
    by_cases hp : p.1 = k
    · have hself : mapDel rest k = rest := by
        rw [mapDel, List.filter_eq_self]
        intro r hr
        rw [decide_eq_true_eq]
        intro hrk
        exact hq (hp ▸ hrk ▸ List.mem_map_of_mem Prod.fst hr)
      rw [mapDel_cons, if_pos hp, hself, List.length_cons]
    · rw [mapGet_cons, if_neg hp] at h
      have hih := ih hrest h
      rw [mapDel_cons, if_neg hp, List.length_cons, List.length_cons]
      omega


/-! ## Characterization of the config-manager operations -/

theorem assertVersionE_ok {q : ℚ} (hq : 0 ≤ q) : assertVersionE (JsValue.num q) = Except.ok q := by
  rw [assertVersionE, if_neg (not_lt.mpr hq)]

theorem ptrOkB_iff (st : CMState) :
    ptrOkB st = true ↔ ∀ v, st.activeVersion? = some v →
      ∃ c, mapGet st.configs v = some c ∧ c.status = Status.ACTIVE := by
  cases hA : st.activeVersion? with
  | none => simp [ptrOkB, hA]
  | some v =>
    cases hG : mapGet st.configs v with
    | none => simp [ptrOkB, hA, hG]
    | some c => simp [ptrOkB, hA, hG]

theorem activate_cases {st : CMState} {ver : JsValue} {st2 : CMState}
    (h : activate st ver = Except.ok st2) :
    ∃ v config, assertVersionE ver = Except.ok v ∧ mapGet st.configs v = some config ∧
      ((st.activeVersion? = some v ∧ st2 = st) ∨
       (st.activeVersion? ≠ some v ∧
         (st.activeVersion? = none ∨
           (∃ av, st.activeVersion? = some av ∧ mapGet st.configs av = none)) ∧
         st2 = { configs := mapSetStatus st.configs v Status.ACTIVE,
                 fakeConfigs := mapSetStatus st.fakeConfigs v Status.ACTIVE,
                 activeVersion? := (mapGet (mapSetStatus st.fakeConfigs v Status.ACTIVE) config.version).map StoredConfig.version }) ∨
       (∃ av cA, st.activeVersion? = some av ∧ st.activeVersion? ≠ some v ∧
         mapGet st.configs av = some cA ∧
         st2 = { configs := mapSetStatus (mapSetStatus st.configs av Status.INACTIVE) v Status.ACTIVE,
                 fakeConfigs := mapSetStatus (mapSetStatus st.fakeConfigs av Status.INACTIVE) v Status.ACTIVE,
                 activeVersion? := (mapGet (mapSetStatus (mapSetStatus st.fakeConfigs av Status.INACTIVE) v Status.ACTIVE) config.version).map StoredConfig.version })) := by
  rw [activate] at h
  split at h
  · exact absurd h (by simp)
  · rename_i v hv
    split at h
    · exact absurd h (by simp)
    · rename_i config hG
      split at h
      · rename_i hA
        injection h with hh
        subst hh
        exact ⟨v, config, hv, hG, Or.inl ⟨hA, rfl⟩⟩
      · rename_i hA
        split at h
        · rename_i hNone
          injection h with hh
          subst hh
          exact ⟨v, config, hv, hG, Or.inr (Or.inl ⟨hA, Or.inl hNone, rfl⟩)⟩
        · rename_i av hAv
          split at h
          · rename_i hAvG
            injection h with hh
            subst hh
            exact ⟨v, config, hv, hG, Or.inr (Or.inl ⟨hA, Or.inr ⟨av, hAv, hAvG⟩, rfl⟩)⟩
          · rename_i cA hAvG
            injection h with hh
            subst hh
            exact ⟨v, config, hv, hG, Or.inr (Or.inr ⟨av, cA, hAv, hA, hAvG, rfl⟩)⟩

theorem update_cases {st : CMState} {c : ConfigInput} {st2 : CMState}
    (h : update st c = Except.ok st2) :
    ∃ v s, assertVersionE c.version = Except.ok v ∧ assertStatusE c.status = Except.ok s ∧
      ((mapGet st.configs v = none ∧ st2 = st) ∨
       (∃ stored, mapGet st.configs v = some stored ∧ s = stored.status ∧
         st2 = { st with configs := mapSet st.configs v ⟨v, s, c.payload⟩,
                         fakeConfigs := mapSet st.fakeConfigs v ⟨v, s, c.payload⟩ })) := by
  rw [update] at h
  split at h
  · exact absurd h (by simp)
  · rename_i v hv
    split at h
    · exact absurd h (by simp)
    · rename_i s hs
      split at h
      · rename_i hG
        injection h with hh
        subst hh
        exact ⟨v, s, hv, hs, Or.inl ⟨hG, rfl⟩⟩
      · rename_i stored hG
        split at h
        · exact absurd h (by simp)
        · rename_i hsame
          rw [not_not] at hsame
          injection h with hh
          subst hh
          exact ⟨v, s, hv, hs, Or.inr ⟨stored, hG, hsame, rfl⟩⟩

theorem remove_cases {st : CMState} {ver : JsValue} {st2 : CMState}
    (h : remove st ver = Except.ok st2) :
    ∃ v, assertVersionE ver = Except.ok v ∧
      ((mapGet st.configs v = none ∧ st2 = st) ∨
       (∃ config, mapGet st.configs v = some config ∧ config.status ≠ Status.ACTIVE ∧
         st2 = { st with configs := mapDel st.configs v,
                         fakeConfigs := mapDel st.fakeConfigs v })) := by
  rw [remove] at h
  split at h
  · exact absurd h (by simp)
  · rename_i v hv
    split at h
    · rename_i hG
      injection h with hh
      subst hh
      exact ⟨v, hv, Or.inl ⟨hG, rfl⟩⟩
    · rename_i config hG
      split at h
      · exact absurd h (by simp)
      · rename_i hact
        injection h with hh
        subst hh
        exact ⟨v, hv, Or.inr ⟨config, hG, hact, rfl⟩⟩

theorem add_cases {st : CMState} {c : ConfigInput} {st2 : CMState}
    (h : add st c = Except.ok st2) :
    ∃ v s, assertVersionE c.version = Except.ok v ∧ assertStatusE c.status = Except.ok s ∧
      ¬(s = Status.ACTIVE ∧ st.activeVersion?.isSome) ∧ mapGet st.configs v = none ∧
      ((s ≠ Status.ACTIVE ∧
         st2 = { configs := mapSet st.configs v ⟨v, s, c.payload⟩,
                 fakeConfigs := mapSet st.fakeConfigs v ⟨v, s, c.payload⟩,
                 activeVersion? := st.activeVersion? }) ∨
       (s = Status.ACTIVE ∧
         activate { configs := mapSet st.configs v ⟨v, s, c.payload⟩,
                    fakeConfigs := mapSet st.fakeConfigs v ⟨v, s, c.payload⟩,
                    activeVersion? := st.activeVersion? } (JsValue.num v) = Except.ok st2)) := by
  rw [add] at h
  split at h
  · exact absurd h (by simp)
  · rename_i v hv
    split at h
    · exact absurd h (by simp)
    · rename_i s hs
      split at h
      · exact absurd h (by simp)
      · rename_i hOv
        split at h
        · exact absurd h (by simp)
        · rename_i hDup
          rw [Option.isSome_iff_ne_none, not_not] at hDup
          split at h
          · rename_i hact
            exact ⟨v, s, hv, hs, hOv, hDup, Or.inr ⟨hact, h⟩⟩
          · rename_i hact
            injection h with hh
            subst hh
            exact ⟨v, s, hv, hs, hOv, hDup, Or.inl ⟨hact, rfl⟩⟩

/-! ## Preservation of the single-active invariant -/

theorem emptyCM_inv : ActiveInv emptyCM :=
  ⟨List.nodup_nil, rfl, by simp [emptyCM], by simp [emptyCM], rfl⟩

theorem no_active_of_ptr_none {st : CMState} (hKey : ∀ p ∈ st.configs,
      p.2.status = Status.ACTIVE → st.activeVersion? = some p.1)
    (hA : st.activeVersion? = none) :
    ∀ p ∈ st.configs, p.2.status ≠ Status.ACTIVE := by
  intro p hp hact
  rw [hKey p hp hact] at hA
  cases hA

theorem update_inv {st : CMState} {c : ConfigInput} {st2 : CMState}
    (hInv : ActiveInv st) (h : update st c = Except.ok st2) : ActiveInv st2 := by
  obtain ⟨hN, hMir, hCoh, hKey, hPtr⟩ := hInv
  obtain ⟨v, s, hv, hs, hcase⟩ := update_cases h
  rcases hcase with ⟨hG, rfl⟩ | ⟨stored, hG, hsame, rfl⟩
  · exact ⟨hN, hMir, hCoh, hKey, hPtr⟩
  · refine ⟨keysNodup_set v _ hN, by rw [hMir], ?_, ?_, ?_⟩
    · intro p hp
      rcases mem_set hN hp with rfl | ⟨hold, _⟩
      · rfl
      · exact hCoh p hold
    · intro p hp hact
      rcases mem_set hN hp with rfl | ⟨hold, _⟩
      · have : stored.status = Status.ACTIVE := by
          rw [← hsame]; exact hact
        exact hKey (v, stored) (mapGet_eq_some_mem hG) this
      · exact hKey p hold hact
    · rw [ptrOkB_iff]
      intro v2 hA2
      obtain ⟨cA, hcA, hcAact⟩ := (ptrOkB_iff st).mp hPtr v2 hA2
      by_cases hvv : v2 = v
      · subst hvv
        have hstored : cA = stored := by
          rw [hG] at hcA; injection hcA with hh; exact hh.symm
        refine ⟨⟨v2, s, c.payload⟩, ?_, ?_⟩
        · simp [mapGet_set_self]
        · rw [hsame, ← hstored]; exact hcAact
      · exact ⟨cA, by rw [mapGet_set_ne _ _ hvv]; exact hcA, hcAact⟩

theorem remove_inv {st : CMState} {ver : JsValue} {st2 : CMState}
    (hInv : ActiveInv st) (h : remove st ver = Except.ok st2) : ActiveInv st2 := by
  obtain ⟨hN, hMir, hCoh, hKey, hPtr⟩ := hInv
  obtain ⟨v, hv, hcase⟩ := remove_cases h
  rcases hcase with ⟨hG, rfl⟩ | ⟨config, hG, hact, rfl⟩
  · exact ⟨hN, hMir, hCoh, hKey, hPtr⟩
  · refine ⟨keysNodup_del v hN, by rw [hMir], ?_, ?_, ?_⟩
    · intro p hp
      exact hCoh p (mem_del.mp hp).1
    · intro p hp h2
      exact hKey p (mem_del.mp hp).1 h2
    · rw [ptrOkB_iff]
      intro v2 hA2
      obtain ⟨cA, hcA, hcAact⟩ := (ptrOkB_iff st).mp hPtr v2 hA2
      have hvv : v2 ≠ v := by
        intro hvv
        subst hvv
        rw [hG] at hcA
        injection hcA with hh
        exact hact (hh ▸ hcAact)
      exact ⟨cA, by rw [mapGet_del_ne _ hvv]; exact hcA, hcAact⟩

theorem coh_setStatus {m : VMap} {k : ℚ} {s : Status}
    (hCoh : ∀ p ∈ m, p.2.version = p.1) :
    ∀ p ∈ mapSetStatus m k s, p.2.version = p.1 := by
  intro p hp
  obtain ⟨q, hq, rfl⟩ := mem_setStatus hp
  by_cases hqk : q.1 = k
  · simp [hqk, hCoh q hq]
  · simp [hqk, hCoh q hq]

theorem ptr_after_setStatus_self {m : VMap} {v : ℚ} {config : StoredConfig}
    (hG : mapGet m v = some config) (hver : config.version = v) :
    (mapGet (mapSetStatus m v Status.ACTIVE) config.version).map StoredConfig.version = some v := by
  rw [hver, mapGet_setStatus_self, hG]
  simp [hver]

theorem activate_simple_inv {st : CMState} {v : ℚ} {config : StoredConfig}
    (hN : keysNodup st.configs) (hMir : st.fakeConfigs = st.configs)
    (hCoh : ∀ p ∈ st.configs, p.2.version = p.1)
    (hNoAct : ∀ p ∈ st.configs, p.1 ≠ v → p.2.status ≠ Status.ACTIVE)
    (hG : mapGet st.configs v = some config) :
    ActiveInv { configs := mapSetStatus st.configs v Status.ACTIVE,
                fakeConfigs := mapSetStatus st.fakeConfigs v Status.ACTIVE,
                activeVersion? := (mapGet (mapSetStatus st.fakeConfigs v Status.ACTIVE) config.version).map StoredConfig.version } := by
  have hver : config.version = v := hCoh (v, config) (mapGet_eq_some_mem hG)
  rw [hMir]
  have hA2 : (mapGet (mapSetStatus st.configs v Status.ACTIVE) config.version).map StoredConfig.version = some v :=
    ptr_after_setStatus_self hG hver
  refine ⟨?_, rfl, coh_setStatus hCoh, ?_, ?_⟩
  · rw [keysNodup, keys_setStatus]
    exact hN
  · intro p hp hact
    rcases mem_setStatus hp with ⟨q, hq, rfl⟩
    by_cases hqk : q.1 = v
    · simp [hqk, hA2]
    · rw [if_neg hqk] at hact ⊢
      exact absurd hact (hNoAct q hq hqk)
  · rw [ptrOkB_iff]
    intro v2 hv2
    rw [hA2] at hv2
    injection hv2 with hv2
    subst hv2
    refine ⟨{ config with status := Status.ACTIVE }, ?_, rfl⟩
    rw [mapGet_setStatus_self, hG]
    rfl

theorem activate_inv {st : CMState} {ver : JsValue} {st2 : CMState}
    (hInv : ActiveInv st) (h : activate st ver = Except.ok st2) : ActiveInv st2 := by
  obtain ⟨hN, hMir, hCoh, hKey, hPtr⟩ := hInv
  obtain ⟨v, config, hv, hG, hcase⟩ := activate_cases h
  rcases hcase with ⟨hA, rfl⟩ | ⟨hA, hsub, rfl⟩ | ⟨av, cA, hAv, hAne, hAvG, rfl⟩
  · exact ⟨hN, hMir, hCoh, hKey, hPtr⟩
  · rcases hsub with hNone | ⟨av, hAv, hAvG⟩
    · exact activate_simple_inv hN hMir hCoh
        (fun p hp _ => no_active_of_ptr_none hKey hNone p hp) hG
    · obtain ⟨cA, hcA, _⟩ := (ptrOkB_iff st).mp hPtr av hAv
      rw [hAvG] at hcA
      cases hcA
  · have havv : av ≠ v := fun hh => hAne (hh ▸ hAv)
    have hvav : v ≠ av := fun hh => havv hh.symm
    have hver : config.version = v := hCoh (v, config) (mapGet_eq_some_mem hG)
    rw [hMir]
    have hGin : mapGet (mapSetStatus st.configs av Status.INACTIVE) v = some config := by
      rw [mapGet_setStatus_ne _ _ hvav]
      exact hG
    have hA2 : (mapGet (mapSetStatus (mapSetStatus st.configs av Status.INACTIVE) v Status.ACTIVE) config.version).map StoredConfig.version = some v :=
      ptr_after_setStatus_self hGin hver
    have hCohIn : ∀ p ∈ mapSetStatus st.configs av Status.INACTIVE, p.2.version = p.1 :=
      coh_setStatus hCoh
    refine ⟨?_, rfl, coh_setStatus hCohIn, ?_, ?_⟩
    · rw [keysNodup, keys_setStatus, keys_setStatus]
      exact hN
    · intro p hp hact
      rcases mem_setStatus hp with ⟨q, hq, rfl⟩
      by_cases hqk : q.1 = v
      · simp [hqk, hA2]
      · rw [if_neg hqk] at hact ⊢
        rcases mem_setStatus hq with ⟨r, hr, rfl⟩
        by_cases hrk : r.1 = av
        · rw [if_pos hrk] at hact
          cases hact
        · rw [if_neg hrk] at hact hqk ⊢
          have := hKey r hr hact
          rw [hAv] at this
          injection this with this
          exact absurd this.symm hrk
    · rw [ptrOkB_iff]
      intro v2 hv2
      rw [hA2] at hv2
      injection hv2 with hv2
      subst hv2
      refine ⟨{ config with status := Status.ACTIVE }, ?_, rfl⟩
      rw [mapGet_setStatus_self, hGin]
      rfl

theorem add_inv {st : CMState} {c : ConfigInput} {st2 : CMState}
    (hInv : ActiveInv st) (h : add st c = Except.ok st2) : ActiveInv st2 := by
  obtain ⟨hN, hMir, hCoh, hKey, hPtr⟩ := hInv
  obtain ⟨v, s, hv, hs, hOv, hDup, hcase⟩ := add_cases h
  have hN1 : keysNodup (mapSet st.configs v ⟨v, s, c.payload⟩) := keysNodup_set v _ hN
  have hCoh1 : ∀ p ∈ mapSet st.configs v ⟨v, s, c.payload⟩, p.2.version = p.1 := by
    intro p hp
    rcases mem_set hN hp with rfl | ⟨hold, _⟩
    · rfl
    · exact hCoh p hold
  rcases hcase with ⟨hsne, rfl⟩ | ⟨hsact, hact⟩
  · refine ⟨hN1, by rw [hMir], hCoh1, ?_, ?_⟩
    · intro p hp h2
      rcases mem_set hN hp with rfl | ⟨hold, _⟩
      · exact absurd h2 hsne
      · exact hKey p hold h2
    · rw [ptrOkB_iff]
      intro v2 hA2
      obtain ⟨cA, hcA, hcAact⟩ := (ptrOkB_iff st).mp hPtr v2 hA2
      have hvv : v2 ≠ v := by
        intro hvv
        subst hvv
        rw [hcA] at hDup
        cases hDup
      exact ⟨cA, by rw [mapGet_set_ne _ _ hvv]; exact hcA, hcAact⟩
  · subst hsact
    have hANone : st.activeVersion? = none := by
      cases hA : st.activeVersion? with
      | none => rfl
      | some av => exact absurd ⟨rfl, by rw [hA]; rfl⟩ hOv
    obtain ⟨v2, config2, hv2, hG2, hcase2⟩ := activate_cases hact
    have hv2v : v2 = v := by
      rw [assertVersionE] at hv2
      split at hv2
      · cases hv2
      · injection hv2 with hh
        exact hh.symm
    subst v2
    have hG2' : config2 = ⟨v, Status.ACTIVE, c.payload⟩ := by
      rw [mapGet_set_self] at hG2
      injection hG2 with hh
      exact hh.symm
    subst hG2'
    rcases hcase2 with ⟨hA2, _⟩ | ⟨_, _, rfl⟩ | ⟨av, cA, hAv2, _, _, _⟩
    · rw [hANone] at hA2
      cases hA2
    · exact activate_simple_inv hN1 (by rw [hMir]) hCoh1
        (fun p hp hpne hpact => by
          rcases mem_set hN hp with rfl | ⟨hold, _⟩
          · exact hpne rfl
          · have := hKey p hold hpact
            rw [hANone] at this
            cases this)
        hG2
    · rw [hANone] at hAv2
      cases hAv2

theorem runCM_inv {st : CMState} (op : CMOp) (hInv : ActiveInv st) :
    ActiveInv (runCM st op) := by
  rw [runCM]
  cases hr : applyCM st op with
  | error e => exact hInv
  | ok st2 =>
    cases op with
    | addOp c => exact add_inv hInv (by simpa [applyCM] using hr)
    | updateOp c => exact update_inv hInv (by simpa [applyCM] using hr)
    | removeOp v => exact remove_inv hInv (by simpa [applyCM] using hr)
    | activateOp v => exact activate_inv hInv (by simpa [applyCM] using hr)

theorem foldl_runCM_inv (ops : List CMOp) {st : CMState} (hInv : ActiveInv st) :
    ActiveInv (ops.foldl runCM st) := by
  induction ops generalizing st with
  | nil => exact hInv
  | cons op rest ih => exact ih (runCM_inv op hInv)

theorem addAll_inv {init : List ConfigInput} {st0 st : CMState}
    (hInv : ActiveInv st0) (h : addAll st0 init = Except.ok st) : ActiveInv st := by
  induction init generalizing st0 with
  | nil =>
    rw [addAll] at h
    injection h with hh
    subst hh
    exact hInv
  | cons c rest ih =>
    rw [addAll] at h
    cases ha : add st0 c with
    | error e => rw [ha] at h; cases h
    | ok st1 =>
      rw [ha] at h
      exact ih (add_inv hInv ha) h

theorem activeCount_le_one {st : CMState} (hInv : ActiveInv st) :
    activeCount st.configs ≤ 1 := by
  obtain ⟨hN, _, _, hKey, _⟩ := hInv
  cases hA : st.activeVersion? with
  | none =>
    have hnil : st.configs.filter (fun p => decide (p.2.status = Status.ACTIVE)) = [] := by
      rw [List.filter_eq_nil_iff]
      intro p hp
      rw [decide_eq_true_eq]
      intro hact
      rw [hKey p hp hact] at hA
      cases hA
    rw [activeCount, hnil]
    simp
  | some av =>
    by_contra hgt
    rw [not_le] at hgt
    rw [activeCount] at hgt
    have hNF : ((st.configs.filter (fun p => decide (p.2.status = Status.ACTIVE))).map Prod.fst).Nodup :=
      List.Nodup.sublist ((List.filter_sublist st.configs).map Prod.fst) hN
    have hAllAv : ∀ p ∈ st.configs.filter (fun p => decide (p.2.status = Status.ACTIVE)), p.1 = av := by
      intro p hp
      rw [List.mem_filter, decide_eq_true_eq] at hp
      have := hKey p hp.1 hp.2
      rw [hA] at this
      injection this with hh
      exact hh.symm
    rcases hF : st.configs.filter (fun p => decide (p.2.status = Status.ACTIVE)) with _ | ⟨f0, tl⟩
    · rw [hF] at hgt; simp at hgt
    · rcases htl : tl with _ | ⟨f1, tl2⟩
      · rw [hF, htl] at hgt; simp at hgt
      · rw [hF, htl] at hNF hAllAv
        simp only [List.map_cons, List.nodup_cons, List.mem_cons, List.mem_map] at hNF
        have h0 : f0.1 = av := hAllAv f0 (by simp)
        have h1 : f1.1 = av := hAllAv f1 (by simp)
        exact hNF.1 (Or.inl (h0.trans h1.symm))

/-- Claim C1: for every InMemoryConfigManager (built by the constructor
from any initial list) and every sequence of add, update, remove or
activate calls each run to completion whether it succeeds or throws, at
most one stored record has status ACTIVE afterwards; since every prefix
of a sequence is itself a sequence, this bounds every point between
operations. -/
theorem claim_c1_single_active (init : List ConfigInput) (ops : List CMOp) (st0 : CMState)
    (h : mkManager init = Except.ok st0) :
    activeCount ((ops.foldl runCM st0).configs) ≤ 1 :=
  activeCount_le_one (foldl_runCM_inv ops (addAll_inv emptyCM_inv h))

/-- Witness for C1 at a concrete manager: version 1 added ACTIVE, version
2 INACTIVE, then activate 2 and remove 1. -/
theorem claim_c1_single_active_witness :
    activeCount (([CMOp.activateOp (JsValue.num 2), CMOp.removeOp (JsValue.num 1)].foldl runCM
      ⟨[(1, ⟨1, Status.ACTIVE, 0⟩), (2, ⟨2, Status.INACTIVE, 0⟩)],
       [(1, ⟨1, Status.ACTIVE, 0⟩), (2, ⟨2, Status.INACTIVE, 0⟩)], some 1⟩).configs) ≤ 1 :=
  claim_c1_single_active
    [⟨JsValue.num 1, JsValue.num 1, 0⟩, ⟨JsValue.num 2, JsValue.num 0, 0⟩]
    [CMOp.activateOp (JsValue.num 2), CMOp.removeOp (JsValue.num 1)]
    ⟨[(1, ⟨1, Status.ACTIVE, 0⟩), (2, ⟨2, Status.INACTIVE, 0⟩)],
     [(1, ⟨1, Status.ACTIVE, 0⟩), (2, ⟨2, Status.INACTIVE, 0⟩)], some 1⟩
    (by decide)

/-! ## Forward evaluation of activate -/

theorem activate_eval_missing {st : CMState} {q : ℚ} (hq : 0 ≤ q)
    (hG : mapGet st.configs q = none) :
    activate st (JsValue.num q) = Except.error CMError.NO_CONFIG := by
  simp [activate, assertVersionE_ok hq, hG]

theorem activate_eval_noop {st : CMState} {q : ℚ} {c : StoredConfig} (hq : 0 ≤ q)
    (hG : mapGet st.configs q = some c) (hA : st.activeVersion? = some q) :
    activate st (JsValue.num q) = Except.ok st := by
  simp [activate, assertVersionE_ok hq, hG, hA]

theorem activate_eval_none {st : CMState} {q : ℚ} {c : StoredConfig} (hq : 0 ≤ q)
    (hG : mapGet st.configs q = some c) (hA : st.activeVersion? = none) :
    activate st (JsValue.num q) = Except.ok
      { configs := mapSetStatus st.configs q Status.ACTIVE,
        fakeConfigs := mapSetStatus st.fakeConfigs q Status.ACTIVE,
        activeVersion? := (mapGet (mapSetStatus st.fakeConfigs q Status.ACTIVE) c.version).map StoredConfig.version } := by
  simp [activate, assertVersionE_ok hq, hG, hA]

theorem activate_eval_swap {st : CMState} {q av : ℚ} {c d : StoredConfig} (hq : 0 ≤ q)
    (hG : mapGet st.configs q = some c) (hA : st.activeVersion? = some av)
    (hne : av ≠ q) (hAvG : mapGet st.configs av = some d) :
    activate st (JsValue.num q) = Except.ok
      { configs := mapSetStatus (mapSetStatus st.configs av Status.INACTIVE) q Status.ACTIVE,
        fakeConfigs := mapSetStatus (mapSetStatus st.fakeConfigs av Status.INACTIVE) q Status.ACTIVE,
        activeVersion? := (mapGet (mapSetStatus (mapSetStatus st.fakeConfigs av Status.INACTIVE) q Status.ACTIVE) c.version).map StoredConfig.version } := by
  simp [activate, assertVersionE_ok hq, hG, hA, hAvG, hne]

/-- Claim C5: on a reachable manager, activate with a valid version q
throws NO_CONFIG and changes nothing when q is absent; is a no-op when q
is already the active version; and otherwise, in the one returned state,
the previously active record (if any) is INACTIVE, the record at q is
ACTIVE, every other record is untouched, and the active pointer
designates the frozen snapshot at q. -/
theorem claim_c5_activate_spec (st : CMState) (hInv : ActiveInv st) (q : ℚ) (hq : 0 ≤ q) :
    (mapGet st.configs q = none →
      activate st (JsValue.num q) = Except.error CMError.NO_CONFIG ∧
      runCM st (CMOp.activateOp (JsValue.num q)) = st) ∧
    (st.activeVersion? = some q → activate st (JsValue.num q) = Except.ok st) ∧
    (∀ c, mapGet st.configs q = some c → st.activeVersion? ≠ some q →
      ∃ st2, activate st (JsValue.num q) = Except.ok st2 ∧
        st2.activeVersion? = some q ∧
        mapGet st2.configs q = some { c with status := Status.ACTIVE } ∧
        mapGet st2.fakeConfigs q = some { c with status := Status.ACTIVE } ∧
        (∀ av, st.activeVersion? = some av →
          ∃ d, mapGet st.configs av = some d ∧
            mapGet st2.configs av = some { d with status := Status.INACTIVE }) ∧
        (∀ w, w ≠ q → st.activeVersion? ≠ some w →
          mapGet st2.configs w = mapGet st.configs w)) := by
  obtain ⟨hN, hMir, hCoh, hKey, hPtr⟩ := hInv
  refine ⟨?_, ?_, ?_⟩
  · intro hG
    refine ⟨activate_eval_missing hq hG, ?_⟩
    rw [runCM, applyCM, activate_eval_missing hq hG]
  · intro hA
    obtain ⟨c, hc, _⟩ := (ptrOkB_iff st).mp hPtr q hA
    exact activate_eval_noop hq hc hA
  · intro c hG hAne
    have hver : c.version = q := hCoh (q, c) (mapGet_eq_some_mem hG)
    cases hA : st.activeVersion? with
    | none =>
      refine ⟨_, activate_eval_none hq hG hA, ?_, ?_, ?_, ?_, ?_⟩
      · show (mapGet (mapSetStatus st.fakeConfigs q Status.ACTIVE) c.version).map StoredConfig.version = some q
        rw [hMir]
        exact ptr_after_setStatus_self hG hver
      · show mapGet (mapSetStatus st.configs q Status.ACTIVE) q = some { c with status := Status.ACTIVE }
        rw [mapGet_setStatus_self, hG]
        rfl
      · show mapGet (mapSetStatus st.fakeConfigs q Status.ACTIVE) q = some { c with status := Status.ACTIVE }
        rw [hMir, mapGet_setStatus_self, hG]
        rfl
      · intro av hAv
        cases hAv
      · intro w hwq _
        show mapGet (mapSetStatus st.configs q Status.ACTIVE) w = mapGet st.configs w
        exact mapGet_setStatus_ne _ _ hwq
    | some av =>
      have havq : av ≠ q := fun hh => hAne (hh ▸ hA)
      have hqav : q ≠ av := fun hh => havq hh.symm
      obtain ⟨d, hd, hdact⟩ := (ptrOkB_iff st).mp hPtr av hA
      have hGin : mapGet (mapSetStatus st.configs av Status.INACTIVE) q = some c := by
        rw [mapGet_setStatus_ne _ _ hqav]
        exact hG
      refine ⟨_, activate_eval_swap hq hG hA havq hd, ?_, ?_, ?_, ?_, ?_⟩
      · show (mapGet (mapSetStatus (mapSetStatus st.fakeConfigs av Status.INACTIVE) q Status.ACTIVE) c.version).map StoredConfig.version = some q
        rw [hMir]
        exact ptr_after_setStatus_self hGin hver
      · show mapGet (mapSetStatus (mapSetStatus st.configs av Status.INACTIVE) q Status.ACTIVE) q = some { c with status := Status.ACTIVE }
        rw [mapGet_setStatus_self, hGin]
        rfl
      · show mapGet (mapSetStatus (mapSetStatus st.fakeConfigs av Status.INACTIVE) q Status.ACTIVE) q = some { c with status := Status.ACTIVE }
        rw [hMir, mapGet_setStatus_self, hGin]
        rfl
      · intro av2 hAv2
        injection hAv2 with hAv2
        subst av2
        refine ⟨d, hd, ?_⟩
        show mapGet (mapSetStatus (mapSetStatus st.configs av Status.INACTIVE) q Status.ACTIVE) av = some { d with status := Status.INACTIVE }
        rw [mapGet_setStatus_ne _ _ havq, mapGet_setStatus_self, hd]
        rfl
      · intro w hwq hwav
        have hwav2 : w ≠ av := fun hh => hwav (by rw [hh])
        show mapGet (mapSetStatus (mapSetStatus st.configs av Status.INACTIVE) q Status.ACTIVE) w = mapGet st.configs w
        rw [mapGet_setStatus_ne _ _ hwq, mapGet_setStatus_ne _ _ hwav2]

/-- Witness for C5 at a concrete manager holding version 1 ACTIVE and
version 2 INACTIVE: activating the absent version 3 throws NO_CONFIG. -/
theorem claim_c5_activate_spec_witness :
    activate ⟨[(1, ⟨1, Status.ACTIVE, 0⟩), (2, ⟨2, Status.INACTIVE, 0⟩)],
              [(1, ⟨1, Status.ACTIVE, 0⟩), (2, ⟨2, Status.INACTIVE, 0⟩)], some 1⟩
      (JsValue.num 3) = Except.error CMError.NO_CONFIG :=
  ((claim_c5_activate_spec
    ⟨[(1, ⟨1, Status.ACTIVE, 0⟩), (2, ⟨2, Status.INACTIVE, 0⟩)],
     [(1, ⟨1, Status.ACTIVE, 0⟩), (2, ⟨2, Status.INACTIVE, 0⟩)], some 1⟩
    ⟨by decide, rfl, by decide, by decide, by decide⟩
    3 (by decide)).1 (by decide)).1

/-! ## Remove: forward evaluation and claim C9 -/

theorem remove_eval_missing {st : CMState} {q : ℚ} (hq : 0 ≤ q)
    (hG : mapGet st.configs q = none) :
    remove st (JsValue.num q) = Except.ok st := by
  simp [remove, assertVersionE_ok hq, hG]

theorem remove_eval_active {st : CMState} {q : ℚ} {c : StoredConfig} (hq : 0 ≤ q)
    (hG : mapGet st.configs q = some c) (hact : c.status = Status.ACTIVE) :
    remove st (JsValue.num q) = Except.error CMError.REMOVING_ACTIVE_CONFIG := by
  simp [remove, assertVersionE_ok hq, hG, hact]

theorem remove_eval_del {st : CMState} {q : ℚ} {c : StoredConfig} (hq : 0 ≤ q)
    (hG : mapGet st.configs q = some c) (hact : c.status ≠ Status.ACTIVE) :
    remove st (JsValue.num q) = Except.ok
      { st with configs := mapDel st.configs q, fakeConfigs := mapDel st.fakeConfigs q } := by
  simp [remove, assertVersionE_ok hq, hG, hact]

/-- Claim C9: on a reachable manager, remove with a valid version q throws
REMOVING_ACTIVE_CONFIG and changes nothing when the record at q is ACTIVE,
is a silent no-op when q is absent, and otherwise deletes the entry from
both the canonical and the frozen map, shrinking the size by one. -/
theorem claim_c9_remove_spec (st : CMState) (hInv : ActiveInv st) (q : ℚ) (hq : 0 ≤ q) :
    (∀ c, mapGet st.configs q = some c → c.status = Status.ACTIVE →
      remove st (JsValue.num q) = Except.error CMError.REMOVING_ACTIVE_CONFIG ∧
      runCM st (CMOp.removeOp (JsValue.num q)) = st) ∧
    (mapGet st.configs q = none → remove st (JsValue.num q) = Except.ok st) ∧
    (∀ c, mapGet st.configs q = some c → c.status ≠ Status.ACTIVE →
      remove st (JsValue.num q) = Except.ok
        { st with configs := mapDel st.configs q, fakeConfigs := mapDel st.fakeConfigs q } ∧
      (mapDel st.configs q).length + 1 = st.configs.length ∧
      mapGet (mapDel st.configs q) q = none ∧
      mapGet (mapDel st.fakeConfigs q) q = none) := by
  obtain ⟨hN, hMir, hCoh, hKey, hPtr⟩ := hInv
  refine ⟨?_, ?_, ?_⟩
  · intro c hG hact
    refine ⟨remove_eval_active hq hG hact, ?_⟩
    rw [runCM, applyCM, remove_eval_active hq hG hact]
  · intro hG
    exact remove_eval_missing hq hG
  · intro c hG hact
    refine ⟨remove_eval_del hq hG hact, length_del_add_one hN hG, mapGet_del_self _ _, mapGet_del_self _ _⟩

/-- Witness for C9 at a concrete manager holding version 1 ACTIVE and
version 2 INACTIVE: removing the active version 1 throws. -/
theorem claim_c9_remove_spec_witness :
    remove ⟨[(1, ⟨1, Status.ACTIVE, 0⟩), (2, ⟨2, Status.INACTIVE, 0⟩)],
            [(1, ⟨1, Status.ACTIVE, 0⟩), (2, ⟨2, Status.INACTIVE, 0⟩)], some 1⟩
      (JsValue.num 1) = Except.error CMError.REMOVING_ACTIVE_CONFIG :=
  ((claim_c9_remove_spec
    ⟨[(1, ⟨1, Status.ACTIVE, 0⟩), (2, ⟨2, Status.INACTIVE, 0⟩)],
     [(1, ⟨1, Status.ACTIVE, 0⟩), (2, ⟨2, Status.INACTIVE, 0⟩)], some 1⟩
    ⟨by decide, rfl, by decide, by decide, by decide⟩
    1 (by decide)).1 ⟨1, Status.ACTIVE, 0⟩ (by decide) rfl).1

/-! ## The truthy-version bug in get (claims C2 and C7) -/

/-- Claim C2 (code bug): version 0 passes assertVersion and a record can
be stored under it, but get(version) gates its branch on the truthiness
of the argument, so get(0) falls through to the no-argument behaviour:
with no active record it returns absent although record 0 exists. -/
theorem claim_c2_get_zero_bug_eval :
    add emptyCM ⟨JsValue.num 0, JsValue.num 0, 5⟩ =
      Except.ok ⟨[(0, ⟨0, Status.INACTIVE, 5⟩)], [(0, ⟨0, Status.INACTIVE, 5⟩)], none⟩ ∧
    assertVersionE (JsValue.num 0) = Except.ok 0 ∧
    mapGet [((0 : ℚ), ⟨0, Status.INACTIVE, 5⟩)] 0 = some ⟨0, Status.INACTIVE, 5⟩ ∧
    getWithArg ⟨[(0, ⟨0, Status.INACTIVE, 5⟩)], [(0, ⟨0, Status.INACTIVE, 5⟩)], none⟩
      (JsValue.num 0) = Except.ok none :=
  ⟨by decide, by decide, by decide, by decide⟩

/-- Claim C7 (code bug): update of the record at version 0 succeeds and
replaces the stored snapshot keeping the status, but the subsequent
get(0) returns absent rather than the updated record, because of the
truthiness gate in get. -/
theorem claim_c7_update_get_zero_bug_eval :
    update ⟨[(0, ⟨0, Status.INACTIVE, 1⟩)], [(0, ⟨0, Status.INACTIVE, 1⟩)], none⟩
        ⟨JsValue.num 0, JsValue.num 0, 7⟩ =
      Except.ok ⟨[(0, ⟨0, Status.INACTIVE, 7⟩)], [(0, ⟨0, Status.INACTIVE, 7⟩)], none⟩ ∧
    mapGet [((0 : ℚ), ⟨0, Status.INACTIVE, 7⟩)] 0 = some ⟨0, Status.INACTIVE, 7⟩ ∧
    getWithArg ⟨[(0, ⟨0, Status.INACTIVE, 7⟩)], [(0, ⟨0, Status.INACTIVE, 7⟩)], none⟩
      (JsValue.num 0) = Except.ok none :=
  ⟨by decide, by decide, by decide⟩

/-! ## PubSubHandler claims -/

/-- Claim C3 (code bug): _validateMode tests membership in the PubSubStates
enum object rather than PubSubModes, and the numeric reverse-mapping keys
of PubSubStates include -1 (UNSUBSCRIBED); so the mode value -1, which is
none of SUB(0), PUB(1), DUAL(2), is accepted and construction succeeds
with state DISCONNECTED instead of throwing InvalidMode.  The three
recognized modes are accepted with initial state DISCONNECTED, and values
outside the enum (3, NaN, non-numbers) are rejected as the claim says. -/
theorem claim_c3_invalid_mode_bug_eval :
    validateMode (JsValue.num (-1)) = true ∧
    mkHandler (JsValue.num (-1)) = Except.ok ⟨-1, PSState.DISCONNECTED⟩ ∧
    (decide ((-1 : ℚ) = 0) || decide ((-1 : ℚ) = 1) || decide ((-1 : ℚ) = 2)) = false ∧
    mkHandler (JsValue.num 0) = Except.ok ⟨0, PSState.DISCONNECTED⟩ ∧
    mkHandler (JsValue.num 1) = Except.ok ⟨1, PSState.DISCONNECTED⟩ ∧
    mkHandler (JsValue.num 2) = Except.ok ⟨2, PSState.DISCONNECTED⟩ ∧
    mkHandler (JsValue.num 3) = Except.error PSError.INVALID_MODE ∧
    mkHandler JsValue.nan = Except.error PSError.INVALID_MODE ∧
    mkHandler (JsValue.other true) = Except.error PSError.INVALID_MODE := by
  decide

/-- Claim C8: the transition table for a handler whose mode is one of the
three recognized values SUB(0), PUB(1), DUAL(2): connect and disconnect
are idempotent no-ops toward their target direction, the guards throw
NotConnected before any mode check, subscribe and unsubscribe throw
CannotSubscribe exactly when the mode is PUB, publish throws CannotPublish
exactly when the mode is SUB even while connected, and each success lands
in the state the table names (publish leaves the state unchanged). -/
theorem claim_c8_transition_table (h : PSHandler) (hookOk : Bool)
    (hmode : h.mode = 0 ∨ h.mode = 1 ∨ h.mode = 2) :
    (h.isConnected = true → connectOp h hookOk = Except.ok h) ∧
    (h.isConnected = false → hookOk = true →
      connectOp h hookOk = Except.ok { h with state := PSState.CONNECTED }) ∧
    (h.isConnected = false → disconnectOp h hookOk = Except.ok h) ∧
    (h.isConnected = true → hookOk = true →
      disconnectOp h hookOk = Except.ok { h with state := PSState.DISCONNECTED }) ∧
    (h.isConnected = false → subscribeOp h hookOk = Except.error PSError.NOT_CONNECTED) ∧
    (h.isConnected = true → h.mode = 1 →
      subscribeOp h hookOk = Except.error PSError.CANNOT_SUBSCRIBE) ∧
    (h.isConnected = true → h.mode ≠ 1 → hookOk = true →
      subscribeOp h hookOk = Except.ok { h with state := PSState.SUBSCRIBED }) ∧
    (h.isConnected = false → unsubscribeOp h hookOk = Except.error PSError.NOT_CONNECTED) ∧
    (h.isConnected = true → h.mode = 1 →
      unsubscribeOp h hookOk = Except.error PSError.CANNOT_SUBSCRIBE) ∧
    (h.isConnected = true → h.mode ≠ 1 → hookOk = true →
      unsubscribeOp h hookOk = Except.ok { h with state := PSState.DISCONNECTED }) ∧
    (h.isConnected = false → publishOp h hookOk = Except.error PSError.NOT_CONNECTED) ∧
    (h.isConnected = true → h.mode = 0 →
      publishOp h hookOk = Except.error PSError.CANNOT_PUBLISH) ∧
    (h.isConnected = true → h.mode ≠ 0 → hookOk = true →
      publishOp h hookOk = Except.ok h) := by
  obtain ⟨m, s⟩ := h
  rcases hmode with hm | hm | hm <;>
    simp only at hm <;> subst hm <;> cases s <;> cases hookOk <;>
      refine ⟨?_, ?_, ?_, ?_, ?_, ?_, ?_, ?_, ?_, ?_, ?_, ?_, ?_⟩ <;> decide

/-- Witness for C8: a freshly constructed SUB handler subscribes before
connecting and is told NotConnected. -/
theorem claim_c8_transition_table_witness :
    subscribeOp ⟨0, PSState.DISCONNECTED⟩ true = Except.error PSError.NOT_CONNECTED :=
  ((((claim_c8_transition_table ⟨0, PSState.DISCONNECTED⟩ true
    (Or.inl rfl)).2).2).2).2.1 rfl

theorem applyPS_ok_state {h : PSHandler} {op : PSOp} {h2 : PSHandler}
    (hr : applyPS h op = Except.ok h2) :
    h2.state = h.state ∨ h2.state = PSState.CONNECTED ∨
    h2.state = PSState.DISCONNECTED ∨ h2.state = PSState.SUBSCRIBED := by
  cases op with
  | connect ok1 =>
    simp only [applyPS, connectOp] at hr
    split at hr
    · injection hr with hh; subst hh; exact Or.inl rfl
    · split at hr
      · injection hr with hh; subst hh; exact Or.inr (Or.inl rfl)
      · cases hr
  | disconnect ok1 =>
    simp only [applyPS, disconnectOp] at hr
    split at hr
    · injection hr with hh; subst hh; exact Or.inl rfl
    · split at hr
      · injection hr with hh; subst hh; exact Or.inr (Or.inr (Or.inl rfl))
      · cases hr
  | subscribe ok1 =>
    simp only [applyPS, subscribeOp] at hr
    split at hr
    · cases hr
    · split at hr
      · cases hr
      · split at hr
        · injection hr with hh; subst hh; exact Or.inr (Or.inr (Or.inr rfl))
        · cases hr
  | unsubscribe ok1 =>
    simp only [applyPS, unsubscribeOp] at hr
    split at hr
    · cases hr
    · split at hr
      · cases hr
      · split at hr
        · injection hr with hh; subst hh; exact Or.inr (Or.inr (Or.inl rfl))
        · cases hr
  | publish ok1 =>
    simp only [applyPS, publishOp] at hr
    split at hr
    · cases hr
    · split at hr
      · cases hr
      · split at hr
        · injection hr with hh; subst hh; exact Or.inl rfl
        · cases hr

/-- Claim C10: from the initial DISCONNECTED state, whatever the mode and
whatever sequence of lifecycle calls runs (each hook resolving or
rejecting), the state is always DISCONNECTED, CONNECTED or SUBSCRIBED;
the UNSUBSCRIBED member of the state enum is unreachable. -/
theorem claim_c10_unsubscribed_unreachable (mode : ℚ) (ops : List PSOp) :
    (ops.foldl runPS ⟨mode, PSState.DISCONNECTED⟩).state = PSState.DISCONNECTED ∨
    (ops.foldl runPS ⟨mode, PSState.DISCONNECTED⟩).state = PSState.CONNECTED ∨
    (ops.foldl runPS ⟨mode, PSState.DISCONNECTED⟩).state = PSState.SUBSCRIBED := by
  have hstep : ∀ (h : PSHandler) (op : PSOp),
      h.state ≠ PSState.UNSUBSCRIBED → (runPS h op).state ≠ PSState.UNSUBSCRIBED := by
    intro h op hne
    rw [runPS]
    cases hr : applyPS h op with
    | error e => exact hne
    | ok h2 =>
      rcases applyPS_ok_state hr with hs | hs | hs | hs <;> rw [hs]
      · exact hne
      · intro hc; cases hc
      · intro hc; cases hc
      · intro hc; cases hc
  have hmain : ∀ (ops : List PSOp) (h : PSHandler),
      h.state ≠ PSState.UNSUBSCRIBED →
      (ops.foldl runPS h).state ≠ PSState.UNSUBSCRIBED := by
    intro ops
    induction ops with
    | nil => intro h hne; exact hne
    | cons op rest ih => intro h hne; exact ih (runPS h op) (hstep h op hne)
  have := hmain ops ⟨mode, PSState.DISCONNECTED⟩ (by simp)
  cases hs : (ops.foldl runPS ⟨mode, PSState.DISCONNECTED⟩).state with
  | UNSUBSCRIBED => exact absurd hs this
  | DISCONNECTED => exact Or.inl rfl
  | CONNECTED => exact Or.inr (Or.inl rfl)
  | SUBSCRIBED => exact Or.inr (Or.inr rfl)

/-! ## Catalog lemmas -/

theorem assertIdE_invalid {id : JsValue} (h : ValidIdB id = false) :
    assertIdE id = Except.error CatError.INVALID_ID := by
  cases id with
  | num q =>
    rw [ValidIdB, decide_eq_false_iff_not, not_le] at h
    rw [assertIdE, if_pos h]
  | nan => rfl
  | other t => rfl

theorem assertIdE_valid {id : JsValue} (h : ValidIdB id = true) :
    ∃ q, id = JsValue.num q ∧ assertIdE id = Except.ok q := by
  cases id with
  | num q =>
    rw [ValidIdB, decide_eq_true_eq] at h
    exact ⟨q, rfl, by rw [assertIdE, if_neg (not_lt.mpr h)]⟩
  | nan => cases h
  | other t => cases h

theorem take_length_takeWhile {α : Type} (p : α → Bool) (l : List α) :
    l.take (l.takeWhile p).length = l.takeWhile p := by
  induction l with
  | nil => rfl
  | cons x xs ih =>
    by_cases hx : p x <;> simp [List.takeWhile_cons, hx, ih]

theorem drop_length_takeWhile {α : Type} (p : α → Bool) (l : List α) :
    l.drop (l.takeWhile p).length = l.dropWhile p := by
  induction l with
  | nil => rfl
  | cons x xs ih =>
    by_cases hx : p x <;> simp [List.takeWhile_cons, List.dropWhile_cons, hx, ih]

theorem getElem?_eq_head_drop {α : Type} (l : List α) (n : ℕ) :
    l[n]? = (l.drop n).head? := by
  induction l generalizing n with
  | nil => simp
  | cons x xs ih =>
    cases n with
    | zero => simp
    | succ k => simp only [List.getElem?_cons_succ, List.drop_succ_cons]; exact ih k

theorem splice_at_lb (items : List StoredItem) (q : ℚ) (a : StoredItem) :
    splice items (insertionIndex items q) a =
      items.takeWhile (fun it => decide (it.id < q)) ++
        a :: items.dropWhile (fun it => decide (it.id < q)) := by
  rw [splice, insertionIndex, take_length_takeWhile, drop_length_takeWhile]

theorem head_dropWhile_false {α : Type} (p : α → Bool) (l : List α) {a : α}
    (h : (l.dropWhile p).head? = some a) : p a = false := by
  have hm := List.head?_dropWhile_not p l
  rw [h] at hm
  exact hm

theorem mem_dropWhile_lt {items : List StoredItem} {q : ℚ}
    (hs : CatSorted items)
    (hhead : ∀ a, (items.dropWhile (fun it => decide (it.id < q))).head? = some a → a.id ≠ q) :
    ∀ b ∈ items.dropWhile (fun it => decide (it.id < q)), q < b.id := by
  have hpw : (items.dropWhile (fun it => decide (it.id < q))).Pairwise (fun a b => a.id < b.id) :=
    List.Pairwise.sublist (List.dropWhile_sublist _) hs
  intro b hb
  rcases hD : items.dropWhile (fun it => decide (it.id < q)) with _ | ⟨hd, tl⟩
  · rw [hD] at hb; cases hb
  · have hhd := head_dropWhile_false (fun it => decide (it.id < q)) items
      (show _ = some hd by rw [hD]; rfl)
    rw [decide_eq_false_iff_not] at hhd
    have hhdq : hd.id ≠ q := hhead hd (by rw [hD]; rfl)
    have hq : q < hd.id := lt_of_le_of_ne (not_lt.mp hhd) (Ne.symm hhdq)
    rw [hD] at hb hpw
    rcases List.mem_cons.mp hb with rfl | htl
    · exact hq
    · exact lt_trans hq ((List.pairwise_cons.mp hpw).1 b htl)

theorem catSorted_splice {items : List StoredItem} {q : ℚ} {val : ℕ}
    (hs : CatSorted items)
    (hhead : ∀ a, (items.dropWhile (fun it => decide (it.id < q))).head? = some a → a.id ≠ q) :
    CatSorted (items.takeWhile (fun it => decide (it.id < q)) ++
      (⟨q, val⟩ : StoredItem) :: items.dropWhile (fun it => decide (it.id < q))) := by
  refine List.pairwise_append.mpr ⟨List.Pairwise.sublist (List.takeWhile_sublist _) hs, ?_, ?_⟩
  · rw [List.pairwise_cons]
    exact ⟨fun b hb => mem_dropWhile_lt hs hhead b hb,
      List.Pairwise.sublist (List.dropWhile_sublist _) hs⟩
  · intro a ha b hb
    have haq : a.id < q := by simpa using List.mem_takeWhile_imp ha
    rcases List.mem_cons.mp hb with rfl | hb2
    · exact haq
    · exact lt_trans haq (mem_dropWhile_lt hs hhead b hb2)

theorem insertItem_pos_eq (items : List StoredItem) (q : ℚ) :
    items[insertionIndex items q]? =
      (items.dropWhile (fun it => decide (it.id < q))).head? := by
  rw [insertionIndex, getElem?_eq_head_drop, drop_length_takeWhile]

theorem insertItem_ok_of_valid (items : List StoredItem) {item : ItemInput} {q : ℚ}
    (ha : assertIdE item.id = Except.ok q) :
    (insertItem items item = Except.ok (splice items (insertionIndex items q) ⟨q, item.value⟩) ∧
      (∀ a, (items.dropWhile (fun it => decide (it.id < q))).head? = some a → a.id ≠ q)) ∨
    (insertItem items item = Except.error CatError.DUPLICATE_INSERT_ERROR ∧
      ∃ a, (items.dropWhile (fun it => decide (it.id < q))).head? = some a ∧ a.id = q) := by
  rcases hh : (items.dropWhile (fun it => decide (it.id < q))).head? with _ | a
  · left
    constructor
    · simp [insertItem, ha, insertItem_pos_eq, hh]
    · intro a ha2
      rw [hh] at ha2
      cases ha2
  · by_cases hid : a.id = q
    · right
      constructor
      · simp [insertItem, ha, insertItem_pos_eq, hh, hid]
      · exact ⟨a, hh, hid⟩
    · left
      constructor
      · simp [insertItem, ha, insertItem_pos_eq, hh, hid]
      · intro b hb
        rw [hh] at hb
        injection hb with hb
        subst b
        exact hid
  
theorem catSorted_runInsert {items : List StoredItem} (item : ItemInput)
    (hs : CatSorted items) : CatSorted (runInsert items item) := by
  rw [runInsert]
  cases hr : insertItem items item with
  | error e => exact hs
  | ok l =>
    cases ha : assertIdE item.id with
    | error e2 =>
      rw [insertItem, ha] at hr
      cases hr
    | ok q =>
      rcases insertItem_ok_of_valid items ha with ⟨hok, hhead⟩ | ⟨herr, _⟩
      · rw [hok] at hr
        injection hr with hr
        subst l
        rw [splice_at_lb]
        exact catSorted_splice hs hhead
      · rw [herr] at hr
        cases hr

theorem catSorted_foldl (inputs : List ItemInput) :
    CatSorted (inputs.foldl runInsert []) := by
  have hgen : ∀ (inputs : List ItemInput) (items : List StoredItem), CatSorted items →
      CatSorted (inputs.foldl runInsert items) := by
    intro inputs
    induction inputs with
    | nil => exact fun items h => h
    | cons i rest ih => exact fun items h => ih _ (catSorted_runInsert i h)
  exact hgen inputs [] List.Pairwise.nil

theorem nodup_ids_of_sorted {items : List StoredItem} (hs : CatSorted items) :
    (items.map StoredItem.id).Nodup := by
  have : (items.map StoredItem.id).Pairwise (fun a b => a ≠ b) :=
    List.pairwise_map.mpr (hs.imp fun h => ne_of_lt h)
  exact this

theorem head_dropWhile_eq_of_mem {items : List StoredItem} {q : ℚ}
    (hs : CatSorted items) (hmem : q ∈ items.map StoredItem.id) :
    ∃ a, (items.dropWhile (fun it => decide (it.id < q))).head? = some a ∧ a.id = q := by
  obtain ⟨e, he, heq⟩ := List.mem_map.mp hmem
  have hnt : e ∉ items.takeWhile (fun it => decide (it.id < q)) := by
    intro hmem2
    have := List.mem_takeWhile_imp hmem2
    simp [heq] at this
  have heD : e ∈ items.dropWhile (fun it => decide (it.id < q)) := by
    have hsplit : e ∈ items.takeWhile (fun it => decide (it.id < q)) ++
        items.dropWhile (fun it => decide (it.id < q)) := by
      rw [List.takeWhile_append_dropWhile]
      exact he
    rcases List.mem_append.mp hsplit with h1 | h2
    · exact absurd h1 hnt
    · exact h2
  have hpw : (items.dropWhile (fun it => decide (it.id < q))).Pairwise (fun a b => a.id < b.id) :=
    List.Pairwise.sublist (List.dropWhile_sublist _) hs
  rcases hD : items.dropWhile (fun it => decide (it.id < q)) with _ | ⟨hd, tl⟩
  · rw [hD] at heD; cases heD
  · have hhd := head_dropWhile_false (fun it => decide (it.id < q)) items
      (show _ = some hd by rw [hD]; rfl)
    rw [decide_eq_false_iff_not] at hhd
    rw [hD] at heD hpw
    rcases List.mem_cons.mp heD with rfl | htl
    · exact ⟨e, by rw [hD]; rfl, heq⟩
    · have := (List.pairwise_cons.mp hpw).1 e htl
      rw [heq] at this
      exact absurd this hhd

/-! ## Catalog claims -/

/-- The non-integer JS number 1.5, built directly in lowest terms so that
every comparison on it evaluates. -/
def threeHalves : ℚ := ⟨3, 2, by norm_num, by norm_num⟩

/-- Claim C4 counterexample: 1.5 is a number with no integral value (its
denominator is 2, not 1), so the claim as stated requires every catalog
operation to reject it with InvalidIdentity; the code accepts it: assertId
passes and insert succeeds, storing the snapshot under id 1.5. -/
theorem claim_c4_counterexample :
    threeHalves.den ≠ 1 ∧
    assertIdE (JsValue.num threeHalves) = Except.ok threeHalves ∧
    insertItem [] ⟨JsValue.num threeHalves, 5⟩ = Except.ok [⟨threeHalves, 5⟩] ∧
    insertItem [] ⟨JsValue.num threeHalves, 5⟩ ≠ Except.error CatError.INVALID_ID :=
  ⟨by decide, by decide, by decide, by decide⟩

/-- Claim C4 (amended): an identity is valid exactly when it is a non-NaN
number at least 1 — integrality is not checked; every public operation
taking an identity rejects any other value with INVALID_ID before any
other logic runs (so the collection is unchanged), and a valid identity is
never rejected with INVALID_ID. -/
theorem claim_c4_amended_validity (items : List StoredItem) (item : ItemInput) (id : JsValue) :
    ((∃ q, assertIdE id = Except.ok q) ↔ ValidIdB id = true) ∧
    (ValidIdB id = false →
      assertIdE id = Except.error CatError.INVALID_ID ∧
      findById items id = Except.error CatError.INVALID_ID ∧
      removeItem items id = Except.error CatError.INVALID_ID) ∧
    (ValidIdB item.id = false →
      insertItem items item = Except.error CatError.INVALID_ID ∧
      updateItem items item = Except.error CatError.INVALID_ID ∧
      runInsert items item = items) ∧
    (ValidIdB id = true →
      findById items id ≠ Except.error CatError.INVALID_ID ∧
      removeItem items id ≠ Except.error CatError.INVALID_ID) ∧
    (ValidIdB item.id = true →
      insertItem items item ≠ Except.error CatError.INVALID_ID ∧
      updateItem items item ≠ Except.error CatError.INVALID_ID) := by
  refine ⟨?_, ?_, ?_, ?_, ?_⟩
  · constructor
    · intro ⟨q, hq⟩
      by_contra hval
      rw [Bool.not_eq_true] at hval
      rw [assertIdE_invalid hval] at hq
      cases hq
    · intro hval
      obtain ⟨q, _, hok⟩ := assertIdE_valid hval
      exact ⟨q, hok⟩
  · intro hval
    have ha := assertIdE_invalid hval
    exact ⟨ha, by simp [findById, ha], by simp [removeItem, ha]⟩
  · intro hval
    have ha := assertIdE_invalid hval
    refine ⟨by simp [insertItem, ha], by simp [updateItem, ha], ?_⟩
    rw [runInsert]
    simp [insertItem, ha]
  · intro hval
    obtain ⟨q, _, hok⟩ := assertIdE_valid hval
    constructor
    · rw [findById, hok]
      cases hb : bSearchIdx items q <;> simp [hb]
    · rw [removeItem, hok]
      cases hb : bSearchIdx items q <;> simp [hb]
  · intro hval
    obtain ⟨q, _, hok⟩ := assertIdE_valid hval
    constructor
    · rw [insertItem, hok]
      simp only []
      rcases items[insertionIndex items q]? with _ | itemAtPos
      · simp
      · by_cases hid : itemAtPos.id = q <;> simp [hid]
    · rw [updateItem, hok]
      cases hb : bSearchIdx items q <;> simp [hb]

/-- Witness for the amended C4: NaN is invalid and findById on it throws
INVALID_ID. -/
theorem claim_c4_amended_validity_witness :
    findById [] JsValue.nan = Except.error CatError.INVALID_ID ∧
    ValidIdB JsValue.nan = false :=
  ⟨((claim_c4_amended_validity [] ⟨JsValue.nan, 0⟩ JsValue.nan).2.1 rfl).2.1, rfl⟩

/-- Claim C6: for every sequence of inserts run to completion on a catalog
built empty, the backing array (hence fetchAll) is sorted strictly
ascending by identity with no two entries sharing an identity; and an
insert whose valid identity is already stored fails with
DUPLICATE_INSERT_ERROR and leaves the collection unchanged. -/
theorem claim_c6_sorted_unique :
    (∀ inputs : List ItemInput,
      CatSorted (fetchAll (inputs.foldl runInsert [])) ∧
      ((fetchAll (inputs.foldl runInsert [])).map StoredItem.id).Nodup) ∧
    (∀ (inputs : List ItemInput) (item : ItemInput) (q : ℚ),
      assertIdE item.id = Except.ok q →
      q ∈ (inputs.foldl runInsert []).map StoredItem.id →
      insertItem (inputs.foldl runInsert []) item = Except.error CatError.DUPLICATE_INSERT_ERROR ∧
      runInsert (inputs.foldl runInsert []) item = inputs.foldl runInsert []) := by
  constructor
  · intro inputs
    exact ⟨catSorted_foldl inputs, nodup_ids_of_sorted (catSorted_foldl inputs)⟩
  · intro inputs item q ha hmem
    obtain ⟨a, hhead, haq⟩ := head_dropWhile_eq_of_mem (catSorted_foldl inputs) hmem
    rcases insertItem_ok_of_valid (inputs.foldl runInsert []) ha with ⟨_, hne⟩ | ⟨herr, _⟩
    · exact absurd haq (hne a hhead)
    · exact ⟨herr, by rw [runInsert, herr]⟩

/-- Witness for C6: inserting id 5 twice fails the second time with
DUPLICATE_INSERT_ERROR and the collection is unchanged. -/
theorem claim_c6_sorted_unique_witness :
    insertItem (List.foldl runInsert [] [⟨JsValue.num 5, 0⟩]) ⟨JsValue.num 5, 1⟩ =
      Except.error CatError.DUPLICATE_INSERT_ERROR ∧
    runInsert (List.foldl runInsert [] [⟨JsValue.num 5, 0⟩]) ⟨JsValue.num 5, 1⟩ =
      List.foldl runInsert [] [⟨JsValue.num 5, 0⟩] :=
  claim_c6_sorted_unique.2 [⟨JsValue.num 5, 0⟩] ⟨JsValue.num 5, 1⟩ 5 (by decide) (by decide)
